import Mathlib

/-!
Verification of the mapping-driven PDF overlay engine
(`netlify/functions/generate.js`, two variants: variant A, the
filesystem-based handler, and variant B, the fetch-based handler).

JavaScript scalar values are modelled by `JsVal` (strings, integer
numerics, booleans, `null`); `undefined` is modelled by `Option.none`
wherever a value may be absent.  The numeric tower used for
coordinates is `JsNumber` (an integer, or `NaN`).  A draw call issued
against a page is a `DrawOp`.  Every definition is translated from
the JavaScript source; the line numbers in comments refer to the
concatenated source file.  The primitive JavaScript string operations
(`trim`, `toLowerCase`, `split`, `join`, `startsWith`, `endsWith`) are
modelled by executable character-list functions so that every
definition evaluates inside the kernel.
-/

/-- JavaScript `trim` on a character list: whitespace is removed from
both ends. -/
def sTrimL (l : List Char) : List Char :=
  ((l.dropWhile Char.isWhitespace).reverse.dropWhile Char.isWhitespace).reverse

/-- JavaScript `String.prototype.trim`. -/
def sTrim (s : String) : String :=
  String.mk (sTrimL s.data)

/-- JavaScript `String.prototype.toLowerCase` (ASCII range, which is
all the source compares after lowering). -/
def sToLower (s : String) : String :=
  String.mk (s.data.map Char.toLower)

/-- JavaScript `String.prototype.length`. -/
def sLength (s : String) : Nat :=
  s.data.length

/-- JavaScript `String.prototype.startsWith`. -/
def sStartsWith (s p : String) : Bool :=
  p.data.isPrefixOf s.data

/-- JavaScript `String.prototype.endsWith`. -/
def sEndsWith (s p : String) : Bool :=
  p.data.isSuffixOf s.data

/-- Worker for `sSplitOn`: fuel-based scan so that it reduces in the
kernel.  The fuel starts at the length of the subject and decreases
with every consumed character. -/
def sSplitGo (sep : List Char) : Nat → List Char → List Char → List (List Char)
  | _, [], acc => [acc.reverse]
  | 0, rest, acc => [acc.reverse ++ rest]
  | fuel + 1, c :: cs, acc =>
    if sep.isPrefixOf (c :: cs) then
      acc.reverse :: sSplitGo sep fuel (List.drop (sep.length - 1) cs) []
    else sSplitGo sep fuel cs (c :: acc)

/-- JavaScript `String.prototype.split` with a non-empty literal
separator. -/
def sSplitOn (s sep : String) : List String :=
  (sSplitGo sep.data s.data.length s.data []).map String.mk

/-- JavaScript `Array.prototype.join` / the joining step of
`parts.join("\n")`. -/
def sJoin (sep : String) : List String → String
  | [] => ""
  | [p] => p
  | p :: ps => p ++ sep ++ sJoin sep ps

/-- A JavaScript scalar value as it appears in the JSON data record or
mapping document.  Numeric entries are modelled as integers (the
claims only exercise integral numerics). -/
inductive JsVal where
  | str (s : String)
  | num (n : Int)
  | bool (b : Bool)
  | null
deriving DecidableEq

/-- JavaScript `String(v)` for a scalar value. -/
def jsString : JsVal → String
  | .str s => s
  | .num n => toString n
  | .bool b => if b then "true" else "false"
  | .null => "null"

/-- JavaScript `String(v ?? "")` respectively `v == null ? "" : String(v)`:
`null` and `undefined` become the empty string. -/
def strOrEmpty : Option JsVal → String
  | none => ""
  | some .null => ""
  | some v => jsString v

/-- JavaScript nullish coalescing `a ?? b`. -/
def nullishOr (a b : Option JsVal) : Option JsVal :=
  match a with
  | none => b
  | some .null => b
  | some v => some v

/-- Is the optional value `!= null` in the JavaScript loose sense
(present and not `null`)? -/
def jsNotNull : Option JsVal → Bool
  | none => false
  | some .null => false
  | some _ => true

/-- JavaScript falsiness of a scalar value. -/
def jsFalsy : JsVal → Bool
  | .str s => s == ""
  | .num n => n == 0
  | .bool b => !b
  | .null => true

/-- A JavaScript number: either `NaN` or an integral value (the claims
only exercise integral coordinates and sizes). -/
inductive JsNumber where
  | nan
  | num (n : Int)
deriving DecidableEq

/-- Addition of a constant, propagating `NaN` (used for `size + 2`). -/
def jsAdd : JsNumber → Int → JsNumber
  | .nan, _ => .nan
  | .num a, b => .num (a + b)

/-- Subtraction, propagating `NaN` (used for `yy -= lineHeight`). -/
def jsSub : JsNumber → JsNumber → JsNumber
  | .nan, _ => .nan
  | .num _, .nan => .nan
  | .num a, .num b => .num (a - b)

/-- `Math.round(size * 1.2)` (variant B, line 287), written exactly
over integers: `Math.round` rounds half toward positive infinity, so
`round(6n/5) = floor(6n/5 + 1/2) = floor((12n+5)/10)`, a flooring
integer division. -/
def lineHeightOf : JsNumber → JsNumber
  | .nan => .nan
  | .num n => .num (Int.fdiv (12 * n + 5) 10)

/-- Value of a list of decimal digit characters. -/
def digitsVal (l : List Char) : Nat :=
  l.foldl (fun a c => a * 10 + (c.toNat - 48)) 0

/-- Modelled fragment of the JavaScript `Number(string)` conversion:
a trimmed empty string is `0`, an optionally signed integer literal is
its value, anything else is `NaN` (fractional, exponent and hex forms,
which the repository never feeds to `Number`, are not modelled). -/
def parseJsNum (s : String) : JsNumber :=
  let t := sTrimL s.data
  if t = [] then .num 0
  else
    let (neg, body) :=
      match t with
      | '-' :: r => (true, r)
      | '+' :: r => (false, r)
      | r => (false, r)
    if body ≠ [] ∧ body.all (·.isDigit) then
      .num (if neg then -(digitsVal body : Int) else (digitsVal body : Int))
    else .nan

/-- JavaScript `Number(v)` on a scalar value. -/
def toNumber : JsVal → JsNumber
  | .num n => .num n
  | .bool b => .num (if b then 1 else 0)
  | .null => .num 0
  | .str s => parseJsNum s

/-- `Number(v || d)`: the default is used when the entry is absent or
falsy, otherwise the entry goes through `Number` (lines 145-147 and
347-349: `Number(f.x || 0)` etc.). -/
def effNum (v : Option JsVal) (d : Int) : JsNumber :=
  match v with
  | none => .num d
  | some w => if jsFalsy w then .num d else toNumber w

/-- `v || d` on an optional string (`f.type || "text"`). -/
def jsOrStr (v : Option String) (d : String) : String :=
  match v with
  | none => d
  | some s => if s == "" then d else s

/-- `Math.max(0, (f.page || 1) - 1)`: the 0-based page index computed
by both variants (lines 142 and 343). -/
def pageIdxOf (p : Option Int) : Nat :=
  (max (0 : Int) ((match p with | none => 1 | some n => if n = 0 then 1 else n) - 1)).toNat

/-- The `source` entry of a field: a single key or an array of keys. -/
inductive SourceVal where
  | key (k : String)
  | keys (l : List String)
deriving DecidableEq

/-- One field specification of the mapping document. -/
structure FieldSpec where
  page : Option Int := none
  x : Option JsVal := none
  y : Option JsVal := none
  size : Option JsVal := none
  type : Option String := none
  source : Option SourceVal := none
  on_value : Option JsVal := none
deriving DecidableEq

/-- The submitted data record: key to scalar value, `none` = absent. -/
def DataRec := String → Option JsVal

/-- A font handle: the wide-coverage embedded fallback (malgun.ttf /
the fetched `fontUrl` font) or the standard Latin-only Helvetica. -/
inductive FontRef where
  | fallbackTtf
  | helvetica
deriving DecidableEq

/-- One draw instruction issued against a page of the template. -/
structure DrawOp where
  pageIdx : Nat
  content : String
  x : JsNumber
  y : JsNumber
  size : JsNumber
  lineHeight : Option JsNumber := none
  font : FontRef
deriving DecidableEq

/-- `normalizeBool` (variant A, lines 25-31). -/
def normalizeBool (v : Option JsVal) : Bool :=
  match v with
  | some (.bool b) => b
  | none => false
  | some .null => false
  | some w =>
      let s := sToLower (jsString w)
      s == "true" || s == "1" || s == "on" || s == "yes" || s == "y"

/-- `isTruthy` (variant B, lines 275-283). -/
def isTruthy (v : Option JsVal) : Bool :=
  match v with
  | some (.bool b) => b
  | some (.num n) => n != 0
  | some (.str s) =>
      let t := sToLower (sTrim s)
      t == "y" || t == "yes" || t == "true" || t == "1" || t == "on" ||
        t == "v" || t == "checked"
  | some .null => false
  | none => false

/-- Worker for the chunking loop of `splitEvery` (variant A, lines
37-38), fuel-based so that it reduces in the kernel.  The source loop
does not terminate for `n = 0`; that unreachable case (the only call
site uses `n = 25`) is modelled as a single chunk. -/
def chunkGo (n : Nat) : Nat → List Char → List (List Char)
  | _, [] => []
  | 0, l => [l]
  | fuel + 1, c :: cs =>
    if n = 0 then [c :: cs]
    else (c :: cs).take n :: chunkGo n fuel ((c :: cs).drop n)

/-- Cut a character list into consecutive chunks of `n` characters. -/
def chunkChars (n : Nat) (l : List Char) : List (List Char) :=
  chunkGo n l.length l

/-- `splitEvery` (variant A, lines 33-40). -/
def splitEvery (str : String) (n : Nat) : String :=
  if str = "" then ""
  else if sLength str ≤ n then str
  else sJoin "\n" ((chunkChars n str.data).map String.mk)

/-- The option-suffix alternatives of the regular expression in
`optionFromKey` (variant A, line 48). -/
def optTokens : List String :=
  ["sk", "kt", "new", "port", "foreigner", "native", "usim", "esim",
   "bank", "card", "prepaid", "postpaid", "skt", "lgu", "mvno"]

/-- `optionFromKey` (variant A, lines 42-51): `base__option`, or
`base_option` where the part after the last underscore is one of the
recognised option tokens (case-insensitively; the regex anchors the
token at the end of the key, so the greedy prefix group always splits
at the last underscore). -/
def optionFromKey (k : String) : Option (String × String) :=
  match sSplitOn k "__" with
  | p1 :: p2 :: _ => some (p1, p2)
  | _ =>
    let parts := sSplitOn k "_"
    match parts.getLast? with
    | none => none
    | some last =>
      if parts.length ≥ 2 ∧ optTokens.contains (sToLower last) then
        some (sJoin "_" parts.dropLast, sToLower last)
      else none

/-- `isCheckboxKey` (variant A, lines 53-64). -/
def isCheckboxKey (k : String) : Bool :=
  sStartsWith k "freet_group_" || sStartsWith k "join_type_" ||
  sStartsWith k "customer_type_" || sStartsWith k "sim_type_" ||
  sStartsWith k "autopay_method_" || sStartsWith k "port_paytype_" ||
  sStartsWith k "prev_carrier_"

/-- Variant A, line 150: `Array.isArray(f.source) && f.source.length ?
f.source[0] : null`, combined with the truthiness test applied to the
result at lines 152 and 162: the effective lookup key is the first
element of an array source when that element is a non-empty string,
otherwise there is none. -/
def srcKeyA (source : Option SourceVal) : Option String :=
  match source with
  | some (.keys (k :: _)) => if k == "" then none else some k
  | _ => none

/-- Variant A, line 152: `const val = src ? data[src] : data[key]`. -/
def resolveValA (data : DataRec) (k : String) (source : Option SourceVal) : Option JsVal :=
  match srcKeyA source with
  | some sk => data sk
  | none => data k

/-- Variant A, line 162: `const compareVal = src ? data[src] :
(data[src || key] ?? val)`. -/
def compareValA (data : DataRec) (k : String) (source : Option SourceVal) : Option JsVal :=
  match srcKeyA source with
  | some sk => data sk
  | none => nullishOr (data k) (resolveValA data k source)

/-- Variant A, lines 158-174: the `checked` flag of the checkbox
branch. -/
def checkedA (data : DataRec) (k : String) (f : FieldSpec) : Bool :=
  if jsNotNull f.on_value then
    match f.on_value with
    | some ov => strOrEmpty (compareValA data k f.source) == jsString ov
    | none => false
  else
    match optionFromKey k with
    | some bo => sToLower (strOrEmpty (data bo.1)) == sToLower bo.2
    | none => normalizeBool (resolveValA data k f.source)

/-- Variant A, lines 124-136: font selection.  `malgun.ttf` is used
when fontkit is available, the file exists and embedding succeeds;
otherwise the standard Helvetica. -/
def selectFontA (fontkitAvailable malgunExists embedOk : Bool) : FontRef :=
  if fontkitAvailable && malgunExists && embedOk then .fallbackTtf else .helvetica

/-- Variant B, lines 326-336: font selection.  The fetched `fontUrl`
font is used when a URL was supplied and fetch + embed succeed; any
failure silently falls back to the standard Helvetica. -/
def selectFontB (fontUrlProvided fetchEmbedOk : Bool) : FontRef :=
  if fontUrlProvided && fetchEmbedOk then .fallbackTtf else .helvetica

/-- Variant B, line 352: `const sourceKey = (spec.source &&
String(spec.source).trim()) ? String(spec.source).trim() : key`.
`String` of an array joins its elements with commas. -/
def sourceKeyB (source : Option SourceVal) (k : String) : String :=
  match source with
  | none => k
  | some (.key s) =>
      if s == "" then k else (if sTrim s == "" then k else sTrim s)
  | some (.keys l) =>
      let j := sTrim (sJoin "," l)
      if j == "" then k else j

/-- Variant B, line 366: `size: size || 12`. -/
def sizeOr12 : JsNumber → JsNumber
  | .nan => .num 12
  | .num q => if q == 0 then .num 12 else .num q

/-- Variant B, lines 355-363: the `shouldCheck` flag. -/
def checkedB (data : DataRec) (sourceKey : String) (onv : Option JsVal) : Bool :=
  match onv with
  | some ov =>
    if ov ≠ JsVal.null ∧ sTrim (jsString ov) ≠ "" then
      strOrEmpty (data sourceKey) == jsString ov
    else isTruthy (data sourceKey)
  | none => isTruthy (data sourceKey)

/-- Variant B, lines 289-293: the per-line loop of `drawMultiline`.
An empty line issues no draw but still advances the cursor. -/
def drawLines (pageIdx : Nat) (font : FontRef) (x size lh : JsNumber) :
    List String → JsNumber → List DrawOp
  | [], _ => []
  | line :: rest, yy =>
    if line == "" then drawLines pageIdx font x size lh rest (jsSub yy lh)
    else ⟨pageIdx, line, x, yy, size, none, font⟩ ::
           drawLines pageIdx font x size lh rest (jsSub yy lh)

/-- Variant B, lines 285-294: `drawMultiline`, with
`lineHeight = Math.round(size * 1.2)`. -/
def drawMultiline (pageIdx : Nat) (font : FontRef) (text : String)
    (x y size : JsNumber) : List DrawOp :=
  drawLines pageIdx font x size (lineHeightOf size) (sSplitOn text "\n") y

/-- The checkbox-path condition of variant A (line 154):
`type === 'checkbox' || isCheckboxKey(key) || f.on_value != null`. -/
def treatA (k : String) (f : FieldSpec) : Bool :=
  sToLower (jsOrStr f.type "text") == "checkbox" || isCheckboxKey k || jsNotNull f.on_value

/-- The draw output of variant A's checkbox path (lines 156-185): one
"V" glyph at `(x, y)` when checked, nothing otherwise. -/
def checkboxOpsA (pageIndex : Nat) (font : FontRef) (data : DataRec)
    (k : String) (f : FieldSpec) : List DrawOp :=
  if checkedA data k f then
    [⟨pageIndex, "V", effNum f.x 0, effNum f.y 0, effNum f.size 10, none, font⟩]
  else []

/-- The final text of variant A's text path (lines 188-192): `_print`
keys longer than 25 characters are re-flowed by `splitEvery`. -/
def textA (data : DataRec) (k : String) (f : FieldSpec) : String :=
  let text0 := strOrEmpty (resolveValA data k f.source)
  if sEndsWith k "_print" ∧ 25 < sLength text0 then splitEvery text0 25 else text0

/-- The draw output of variant A's text path (lines 194-202): one
`drawText` call carrying `lineHeight: size + 2`, skipped for an empty
text. -/
def textOpsA (pageIndex : Nat) (font : FontRef) (data : DataRec)
    (k : String) (f : FieldSpec) : List DrawOp :=
  if textA data k f == "" then []
  else [⟨pageIndex, textA data k f, effNum f.x 0, effNum f.y 0, effNum f.size 10,
         some (jsAdd (effNum f.size 10) 2), font⟩]

/-- Variant A, lines 141-203: processing of one mapping field.
`pdf-lib`s `getPage` throws for an out-of-range index, which the model
reports as `none` (the surrounding `try` turns it into an error
response: the render aborts with no output document).  Otherwise the
field takes the checkbox path iff `treatA`. -/
def drawFieldA (pageCount : Nat) (font : FontRef) (data : DataRec)
    (k : String) (f : FieldSpec) : Option (List DrawOp) :=
  if pageCount ≤ pageIdxOf f.page then none
  else some (if treatA k f then checkboxOpsA (pageIdxOf f.page) font data k f
             else textOpsA (pageIdxOf f.page) font data k f)

/-- Variant A draw loop over all mapping fields; a thrown page lookup
aborts the whole loop. -/
def renderA (pageCount : Nat) (font : FontRef)
    (fields : List (String × FieldSpec)) (data : DataRec) : Option (List DrawOp) :=
  match fields with
  | [] => some []
  | (k, f) :: rest =>
    match drawFieldA pageCount font data k f with
    | none => none
    | some ops =>
      match renderA pageCount font rest data with
      | none => none
      | some more => some (ops ++ more)

/-- The draw output of variant B's checkbox path (lines 354-369): one
"V" glyph at `(x, y)` with size `size || 12` when checked. -/
def checkboxOpsB (pageIndex : Nat) (font : FontRef) (data : DataRec)
    (k : String) (f : FieldSpec) : List DrawOp :=
  if checkedB data (sourceKeyB f.source k) f.on_value then
    [⟨pageIndex, "V", effNum f.x 0, effNum f.y 0, sizeOr12 (effNum f.size 10), none, font⟩]
  else []

/-- The draw output of variant B's text path (lines 371-374): skipped
for an absent, `null` or blank value, otherwise `drawMultiline`. -/
def textOpsB (pageIndex : Nat) (font : FontRef) (data : DataRec)
    (k : String) (f : FieldSpec) : List DrawOp :=
  match data (sourceKeyB f.source k) with
  | none => []
  | some .null => []
  | some v =>
    if sTrim (jsString v) == "" then []
    else drawMultiline pageIndex font (jsString v)
           (effNum f.x 0) (effNum f.y 0) (effNum f.size 10)

/-- Variant B, lines 341-375: processing of one mapping field.  An
out-of-range page index is skipped (`if (!page) continue`); the
checkbox path is taken iff the declared type is exactly `"checkbox"`
(`spec.type || "text"`). -/
def drawFieldB (pageCount : Nat) (font : FontRef) (data : DataRec)
    (k : String) (f : FieldSpec) : List DrawOp :=
  if pageCount ≤ pageIdxOf f.page then []
  else if jsOrStr f.type "text" == "checkbox" then
    checkboxOpsB (pageIdxOf f.page) font data k f
  else textOpsB (pageIdxOf f.page) font data k f

/-- Variant B draw loop over all mapping fields. -/
def renderB (pageCount : Nat) (font : FontRef)
    (fields : List (String × FieldSpec)) (data : DataRec) : List DrawOp :=
  match fields with
  | [] => []
  | (k, f) :: rest => drawFieldB pageCount font data k f ++ renderB pageCount font rest data

/-- Does a string contain a character outside the ASCII range?  (Used
only to state the font-selection claims; the source performs no such
content test.) -/
def hasNonAscii (s : String) : Bool :=
  s.data.any (fun c => 128 ≤ c.toNat)

lemma jsNotNull_some {ov : JsVal} (h : ov ≠ JsVal.null) : jsNotNull (some ov) = true := by
  cases ov <;> simp_all [jsNotNull]

lemma strOrEmpty_nullishOr_self (a : Option JsVal) :
    strOrEmpty (nullishOr a a) = strOrEmpty a := by
  cases a with
  | none => rfl
  | some v => cases v <;> rfl

lemma strOrEmpty_compareValA (data : DataRec) (k : String) (s : Option SourceVal) :
    strOrEmpty (compareValA data k s) = strOrEmpty (resolveValA data k s) := by
  unfold compareValA resolveValA
  cases h : srcKeyA s with
  | some sk => rfl
  | none => exact strOrEmpty_nullishOr_self (data k)

lemma drawFieldA_out {pc : Nat} {f : FieldSpec} (font : FontRef) (data : DataRec)
    (k : String) (h : pc ≤ pageIdxOf f.page) :
    drawFieldA pc font data k f = none := by
  unfold drawFieldA
  simp [h]

lemma drawFieldA_in {pc : Nat} {f : FieldSpec} (font : FontRef) (data : DataRec)
    (k : String) (h : pageIdxOf f.page < pc) :
    drawFieldA pc font data k f =
      some (if treatA k f then checkboxOpsA (pageIdxOf f.page) font data k f
            else textOpsA (pageIdxOf f.page) font data k f) := by
  unfold drawFieldA
  rw [if_neg (Nat.not_le.mpr h)]

lemma drawFieldB_skip {pc : Nat} {f : FieldSpec} (font : FontRef) (data : DataRec)
    (k : String) (h : pc ≤ pageIdxOf f.page) :
    drawFieldB pc font data k f = [] := by
  unfold drawFieldB
  simp [h]

lemma drawFieldB_in {pc : Nat} {f : FieldSpec} (font : FontRef) (data : DataRec)
    (k : String) (h : pageIdxOf f.page < pc) :
    drawFieldB pc font data k f =
      if jsOrStr f.type "text" == "checkbox" then
        checkboxOpsB (pageIdxOf f.page) font data k f
      else textOpsB (pageIdxOf f.page) font data k f := by
  unfold drawFieldB
  rw [if_neg (Nat.not_le.mpr h)]

lemma chunkGo_nil (n fuel : Nat) : chunkGo n fuel [] = [] := by
  cases fuel <;> rfl

lemma chunkGo_succ_cons (n fuel : Nat) (c : Char) (cs : List Char) :
    chunkGo n (fuel + 1) (c :: cs) =
      if n = 0 then [c :: cs]
      else (c :: cs).take n :: chunkGo n fuel ((c :: cs).drop n) := rfl

lemma chunkGo_join (n : Nat) :
    ∀ (fuel : Nat) (l : List Char), l.length ≤ fuel → (chunkGo n fuel l).flatten = l := by
  intro fuel
  induction fuel with
  | zero =>
    intro l hl
    have : l = [] := List.length_eq_zero.mp (Nat.le_zero.mp hl)
    subst this
    rfl
  | succ fuel ih =>
    intro l hl
    cases l with
    | nil => rfl
    | cons c cs =>
      rw [chunkGo_succ_cons]
      by_cases hn : n = 0
      · simp [hn]
      · rw [if_neg hn]
        have hd : ((c :: cs).drop n).length ≤ fuel := by
          have hlen : (c :: cs).length = cs.length + 1 := by simp
          have hn1 : 1 ≤ n := Nat.one_le_iff_ne_zero.mpr hn
          simp only [List.length_drop]
          omega
        simp only [List.flatten_cons, ih _ hd, List.take_append_drop]

lemma chunkGo_chunks (n : Nat) (hn : n ≠ 0) :
    ∀ (fuel : Nat) (l : List Char), l.length ≤ fuel →
      ∀ c ∈ chunkGo n fuel l, c ≠ [] ∧ c.length ≤ n := by
  intro fuel
  induction fuel with
  | zero =>
    intro l hl c hc
    have : l = [] := List.length_eq_zero.mp (Nat.le_zero.mp hl)
    subst this
    simp [chunkGo_nil] at hc
  | succ fuel ih =>
    intro l hl c hc
    cases l with
    | nil => simp [chunkGo_nil] at hc
    | cons a as =>
      rw [chunkGo_succ_cons, if_neg hn] at hc
      rcases List.mem_cons.mp hc with h | h
      · subst h
        constructor
        · obtain ⟨m, rfl⟩ := Nat.exists_eq_succ_of_ne_zero hn
          simp [List.take_cons]
        · simp only [List.length_take]
          exact Nat.min_le_left n _
      · have hn1 : 1 ≤ n := Nat.one_le_iff_ne_zero.mpr hn
        have hd : ((a :: as).drop n).length ≤ fuel := by
          simp only [List.length_drop, List.length_cons]
          simp only [List.length_cons] at hl
          omega
        exact ih _ hd c h

lemma chunkGo_dropLast (n : Nat) (hn : n ≠ 0) :
    ∀ (fuel : Nat) (l : List Char), l.length ≤ fuel →
      ∀ c ∈ (chunkGo n fuel l).dropLast, c.length = n := by
  intro fuel
  induction fuel with
  | zero =>
    intro l hl c hc
    have : l = [] := List.length_eq_zero.mp (Nat.le_zero.mp hl)
    subst this
    simp [chunkGo_nil] at hc
  | succ fuel ih =>
    intro l hl c hc
    cases l with
    | nil => simp [chunkGo_nil] at hc
    | cons a as =>
      rw [chunkGo_succ_cons, if_neg hn] at hc
      cases hrec : chunkGo n fuel ((a :: as).drop n) with
      | nil => simp [hrec] at hc
      | cons b bs =>
        rw [hrec, List.dropLast_cons₂] at hc
        have hdrop_ne : (a :: as).drop n ≠ [] := by
          intro hnil
          rw [hnil, chunkGo_nil] at hrec
          exact List.noConfusion hrec
        have hlen : n < (a :: as).length := by
          by_contra hge
          exact hdrop_ne (List.drop_eq_nil_of_le (Nat.le_of_not_lt hge))
        have hn1 : 1 ≤ n := Nat.one_le_iff_ne_zero.mpr hn
        have hd : ((a :: as).drop n).length ≤ fuel := by
          simp only [List.length_drop, List.length_cons]
          simp only [List.length_cons] at hl
          omega
        rcases List.mem_cons.mp hc with h | h
        · subst h
          simp only [List.length_take, List.length_cons]
          simp only [List.length_cons] at hlen
          omega
        · have := ih _ hd c
          rw [hrec] at this
          exact this h

lemma splitEvery_of_long {s : String} {n : Nat} (h1 : s ≠ "") (h2 : n < sLength s) :
    splitEvery s n = sJoin "\n" ((chunkChars n s.data).map String.mk) := by
  unfold splitEvery
  rw [if_neg h1, if_neg (Nat.not_le.mpr h2)]

lemma drawLines_shape (p : Nat) (font : FontRef) (x size lh : JsNumber) :
    ∀ (lines : List String) (yy : JsNumber) (op : DrawOp),
      op ∈ drawLines p font x size lh lines yy →
      op.pageIdx = p ∧ op.font = font ∧ op.x = x ∧ op.size = size ∧ op.lineHeight = none := by
  intro lines
  induction lines with
  | nil => intro yy op h; simp [drawLines] at h
  | cons l ls ih =>
    intro yy op h
    rw [drawLines] at h
    by_cases hl : (l == "") = true
    · rw [if_pos hl] at h
      exact ih _ op h
    · rw [if_neg hl] at h
      rcases List.mem_cons.mp h with h | h
      · subst h
        exact ⟨rfl, rfl, rfl, rfl, rfl⟩
      · exact ih _ op h

lemma drawLines_pos (p : Nat) (font : FontRef) (x size : JsNumber) (b : Int) :
    ∀ (lines : List String) (a : Int) (i : Nat) (h : i < lines.length),
      lines.get ⟨i, h⟩ ≠ "" →
      (⟨p, lines.get ⟨i, h⟩, x, .num (a - i * b), size, none, font⟩ : DrawOp) ∈
        drawLines p font x size (.num b) lines (.num a) := by
  intro lines
  induction lines with
  | nil => intro a i h; simp at h
  | cons l ls ih =>
    intro a i h hne
    cases i with
    | zero =>
      simp only [List.get] at hne ⊢
      rw [drawLines, if_neg (by simpa using hne)]
      have : a - (0 : Nat) * b = a := by simp
      rw [Nat.cast_zero, zero_mul, sub_zero]
      exact List.mem_cons_self _ _
    | succ j =>
      simp only [List.get] at hne ⊢
      have hj : j < ls.length := Nat.lt_of_succ_lt_succ h
      have hsub : jsSub (JsNumber.num a) (JsNumber.num b) = JsNumber.num (a - b) := rfl
      have harith : a - (j + 1 : Nat) * b = (a - b) - j * b := by push_cast; ring
      rw [drawLines]
      by_cases hl : (l == "") = true
      · rw [if_pos hl, hsub]
        have := ih (a - b) j hj hne
        rw [harith]
        exact this
      · rw [if_neg hl, hsub]
        refine List.mem_cons_of_mem _ ?_
        have := ih (a - b) j hj hne
        rw [harith]
        exact this

lemma drawLines_pos_complete (p : Nat) (font : FontRef) (x size : JsNumber) (b : Int) :
    ∀ (lines : List String) (a : Int) (op : DrawOp),
      op ∈ drawLines p font x size (.num b) lines (.num a) →
      ∃ i, ∃ h : i < lines.length, lines.get ⟨i, h⟩ ≠ "" ∧
        op = ⟨p, lines.get ⟨i, h⟩, x, .num (a - i * b), size, none, font⟩ := by
  intro lines
  induction lines with
  | nil => intro a op h; simp [drawLines] at h
  | cons l ls ih =>
    intro a op h
    rw [drawLines] at h
    have hsub : jsSub (JsNumber.num a) (JsNumber.num b) = JsNumber.num (a - b) := rfl
    by_cases hl : (l == "") = true
    · rw [if_pos hl, hsub] at h
      obtain ⟨i, hi, hne, rfl⟩ := ih (a - b) op h
      refine ⟨i + 1, Nat.succ_lt_succ hi, hne, ?_⟩
      have harith : (a - b) - i * b = a - (i + 1 : Nat) * b := by push_cast; ring
      simp only [List.get]
      rw [harith]
    · rw [if_neg hl, hsub] at h
      rcases List.mem_cons.mp h with h | h
      · refine ⟨0, Nat.succ_pos _, by simpa using hl, ?_⟩
        simp only [List.get]
        rw [Nat.cast_zero, zero_mul, sub_zero]
        exact h
      · obtain ⟨i, hi, hne, rfl⟩ := ih (a - b) op h
        refine ⟨i + 1, Nat.succ_lt_succ hi, hne, ?_⟩
        have harith : (a - b) - i * b = a - (i + 1 : Nat) * b := by push_cast; ring
        simp only [List.get]
        rw [harith]

lemma sSplitGo_no_sep (ch : Char) :
    ∀ (fuel : Nat) (l acc : List Char), l.length ≤ fuel → ch ∉ l →
      sSplitGo [ch] fuel l acc = [acc.reverse ++ l] := by
  intro fuel
  induction fuel with
  | zero =>
    intro l acc hl _
    have : l = [] := List.length_eq_zero.mp (Nat.le_zero.mp hl)
    subst this
    simp [sSplitGo]
  | succ fuel ih =>
    intro l acc hl hch
    cases l with
    | nil => simp [sSplitGo]
    | cons c cs =>
      have hcne : ¬ (ch == c) = true := by
        simp only [beq_iff_eq]
        intro hcontra
        exact hch (hcontra ▸ List.mem_cons_self c cs)
      show (if [ch].isPrefixOf (c :: cs) then _ else _) = _
      rw [if_neg (by simp [List.isPrefixOf, hcne])]
      have hcs : cs.length ≤ fuel := by
        simp only [List.length_cons] at hl
        omega
      rw [ih cs (c :: acc) hcs (fun hmem => hch (List.mem_cons_of_mem c hmem))]
      simp

lemma sSplitOn_no_newline (t : String) (h : '\n' ∉ t.data) : sSplitOn t "\n" = [t] := by
  unfold sSplitOn
  rw [show ("\n" : String).data = ['\n'] from rfl]
  rw [sSplitGo_no_sep '\n' t.data.length t.data [] (Nat.le_refl _) h]
  cases t
  rfl

lemma checkboxOpsA_shape (p : Nat) (font : FontRef) (data : DataRec) (k : String)
    (f : FieldSpec) (op : DrawOp) (h : op ∈ checkboxOpsA p font data k f) :
    op.pageIdx = p ∧ op.font = font := by
  unfold checkboxOpsA at h
  by_cases hc : (checkedA data k f) = true
  · rw [if_pos hc] at h
    rcases List.mem_singleton.mp h with rfl
    exact ⟨rfl, rfl⟩
  · rw [if_neg hc] at h
    simp at h

lemma textOpsA_shape (p : Nat) (font : FontRef) (data : DataRec) (k : String)
    (f : FieldSpec) (op : DrawOp) (h : op ∈ textOpsA p font data k f) :
    op.pageIdx = p ∧ op.font = font := by
  unfold textOpsA at h
  by_cases hc : (textA data k f == "") = true
  · rw [if_pos hc] at h
    simp at h
  · rw [if_neg hc] at h
    rcases List.mem_singleton.mp h with rfl
    exact ⟨rfl, rfl⟩

lemma drawFieldA_ops_shape (pc : Nat) (font : FontRef) (data : DataRec) (k : String)
    (f : FieldSpec) (ops : List DrawOp) (h : drawFieldA pc font data k f = some ops)
    (op : DrawOp) (hop : op ∈ ops) :
    op.pageIdx = pageIdxOf f.page ∧ op.font = font := by
  by_cases hpc : pageIdxOf f.page < pc
  · rw [drawFieldA_in font data k hpc] at h
    injection h with h
    subst h
    by_cases ht : (treatA k f) = true
    · rw [if_pos ht] at hop
      exact checkboxOpsA_shape _ font data k f op hop
    · rw [if_neg ht] at hop
      exact textOpsA_shape _ font data k f op hop
  · rw [drawFieldA_out font data k (Nat.not_lt.mp hpc)] at h
    exact Option.noConfusion h

lemma checkboxOpsB_shape (p : Nat) (font : FontRef) (data : DataRec) (k : String)
    (f : FieldSpec) (op : DrawOp) (h : op ∈ checkboxOpsB p font data k f) :
    op.pageIdx = p ∧ op.font = font := by
  unfold checkboxOpsB at h
  by_cases hc : (checkedB data (sourceKeyB f.source k) f.on_value) = true
  · rw [if_pos hc] at h
    rcases List.mem_singleton.mp h with rfl
    exact ⟨rfl, rfl⟩
  · rw [if_neg hc] at h
    simp at h

lemma drawMultiline_shape (p : Nat) (font : FontRef) (t : String) (x y size : JsNumber)
    (op : DrawOp) (h : op ∈ drawMultiline p font t x y size) :
    op.pageIdx = p ∧ op.font = font := by
  unfold drawMultiline at h
  have := drawLines_shape p font x size (lineHeightOf size) (sSplitOn t "\n") y op h
  exact ⟨this.1, this.2.1⟩

lemma textOpsB_shape (p : Nat) (font : FontRef) (data : DataRec) (k : String)
    (f : FieldSpec) (op : DrawOp) (h : op ∈ textOpsB p font data k f) :
    op.pageIdx = p ∧ op.font = font := by
  unfold textOpsB at h
  cases hv : data (sourceKeyB f.source k) with
  | none => rw [hv] at h; simp at h
  | some v =>
    rw [hv] at h
    cases v with
    | null => simp at h
    | str s =>
      simp only at h
      split at h
      · simp at h
      · exact drawMultiline_shape p font _ _ _ _ op h
    | num n =>
      simp only at h
      split at h
      · simp at h
      · exact drawMultiline_shape p font _ _ _ _ op h
    | bool b =>
      simp only at h
      split at h
      · simp at h
      · exact drawMultiline_shape p font _ _ _ _ op h

lemma drawFieldB_ops_shape (pc : Nat) (font : FontRef) (data : DataRec) (k : String)
    (f : FieldSpec) (op : DrawOp) (hop : op ∈ drawFieldB pc font data k f) :
    op.pageIdx = pageIdxOf f.page ∧ op.font = font := by
  by_cases hpc : pageIdxOf f.page < pc
  · rw [drawFieldB_in font data k hpc] at hop
    by_cases ht : (jsOrStr f.type "text" == "checkbox") = true
    · rw [if_pos ht] at hop
      exact checkboxOpsB_shape _ font data k f op hop
    · rw [if_neg ht] at hop
      exact textOpsB_shape _ font data k f op hop
  · rw [drawFieldB_skip font data k (Nat.not_lt.mp hpc)] at hop
    simp at hop

lemma renderA_isSome (pc : Nat) (font : FontRef) (data : DataRec) :
    ∀ (fields : List (String × FieldSpec)),
      (renderA pc font fields data).isSome ↔
        ∀ p ∈ fields, pageIdxOf (p.2).page < pc := by
  intro fields
  induction fields with
  | nil => simp [renderA]
  | cons kf rest ih =>
    obtain ⟨k, f⟩ := kf
    constructor
    · intro h
      rw [renderA] at h
      cases hd : drawFieldA pc font data k f with
      | none => rw [hd] at h; simp at h
      | some ops =>
        rw [hd] at h
        cases hr : renderA pc font rest data with
        | none => rw [hr] at h; simp at h
        | some more =>
          intro p hp
          rcases List.mem_cons.mp hp with rfl | hp
          · by_contra hge
            rw [drawFieldA_out font data k (Nat.not_lt.mp hge)] at hd
            exact Option.noConfusion hd
          · exact (ih.mp (by rw [hr]; rfl)) p hp
    · intro h
      rw [renderA]
      have hk : pageIdxOf f.page < pc := h (k, f) (List.mem_cons_self _ _)
      rw [drawFieldA_in font data k hk]
      have hrest : (renderA pc font rest data).isSome :=
        ih.mpr (fun p hp => h p (List.mem_cons_of_mem _ hp))
      cases hr : renderA pc font rest data with
      | none => rw [hr] at hrest; exact absurd hrest (by simp)
      | some more => rfl

lemma renderA_fonts (pc : Nat) (font : FontRef) (data : DataRec) :
    ∀ (fields : List (String × FieldSpec)),
      (∀ p ∈ fields, pageIdxOf (p.2).page < pc) →
      ∃ ops, renderA pc font fields data = some ops ∧ ∀ op ∈ ops, op.font = font := by
  intro fields
  induction fields with
  | nil => intro _; exact ⟨[], rfl, by simp⟩
  | cons kf rest ih =>
    obtain ⟨k, f⟩ := kf
    intro h
    have hk : pageIdxOf f.page < pc := h (k, f) (List.mem_cons_self _ _)
    obtain ⟨more, hmore, hfonts⟩ := ih (fun p hp => h p (List.mem_cons_of_mem _ hp))
    refine ⟨(if treatA k f then checkboxOpsA (pageIdxOf f.page) font data k f
             else textOpsA (pageIdxOf f.page) font data k f) ++ more, ?_, ?_⟩
    · rw [renderA, drawFieldA_in font data k hk, hmore]
    · intro op hop
      rcases List.mem_append.mp hop with hop | hop
      · exact (drawFieldA_ops_shape pc font data k f _ (drawFieldA_in font data k hk) op hop).2
      · exact hfonts op hop

lemma renderB_fonts (pc : Nat) (font : FontRef) (data : DataRec) :
    ∀ (fields : List (String × FieldSpec)) (op : DrawOp),
      op ∈ renderB pc font fields data → op.font = font := by
  intro fields
  induction fields with
  | nil => intro op h; simp [renderB] at h
  | cons kf rest ih =>
    obtain ⟨k, f⟩ := kf
    intro op h
    rw [renderB] at h
    rcases List.mem_append.mp h with h | h
    · exact (drawFieldB_ops_shape pc font data k f op h).2
    · exact ih op h

/-- C1 (counterexample): with `source = ["a", "b"]` and data
`a = "Hello"`, `b = "World"`, variant A resolves the field's display
value to `"Hello"` — the data value of the first key only — and not to
the concatenation `"HelloWorld"` the claim requires. -/
theorem c1_counterexample :
    (drawFieldA 1 .helvetica
        (fun k => if k == "a" then some (.str "Hello")
                  else if k == "b" then some (.str "World") else none)
        "greet" { source := some (SourceVal.keys ["a", "b"]) }).map (List.map DrawOp.content)
      = some ["Hello"]
    ∧ ("Hello" : String) ≠ "HelloWorld" := by
  constructor
  · decide
  · decide

/-- C1 (amended): no variant concatenates a sequence source.  Variant A
uses only the first key of an array source (ignoring the rest; an
empty-string first key, a plain string source, an empty array or an
absent source all fall back to the field's own key).  Variant B coerces
the source to a string (arrays are joined with commas), trims it, and
uses the result as the single lookup key when non-empty, else the
field's own key. -/
theorem c1_amended_resolution :
    (∀ (data : DataRec) (k k1 : String) (rest : List String), k1 ≠ "" →
        resolveValA data k (some (.keys (k1 :: rest))) = data k1) ∧
    (∀ (data : DataRec) (k k1 : String) (rest rest2 : List String),
        resolveValA data k (some (.keys (k1 :: rest))) =
          resolveValA data k (some (.keys (k1 :: rest2)))) ∧
    (∀ (data : DataRec) (k s : String), resolveValA data k (some (.key s)) = data k) ∧
    (∀ (data : DataRec) (k : String), resolveValA data k none = data k) ∧
    (∀ (data : DataRec) (k : String), resolveValA data k (some (.keys [])) = data k) ∧
    (∀ (k s : String), s ≠ "" → sTrim s ≠ "" → sourceKeyB (some (.key s)) k = sTrim s) ∧
    (∀ (k : String), sourceKeyB none k = k) ∧
    (∀ (k : String) (l : List String),
        sourceKeyB (some (.keys l)) k =
          if sTrim (sJoin "," l) = "" then k else sTrim (sJoin "," l)) := by
  refine ⟨?_, ?_, ?_, ?_, ?_, ?_, ?_, ?_⟩
  · intro data k k1 rest h
    simp [resolveValA, srcKeyA, h]
  · intro data k k1 rest rest2
    by_cases h : k1 = ""
    · simp [resolveValA, srcKeyA, h]
    · simp [resolveValA, srcKeyA, h]
  · intro data k s; rfl
  · intro data k; rfl
  · intro data k; rfl
  · intro k s h1 h2
    simp [sourceKeyB, h1, h2]
  · intro k; rfl
  · intro k l
    by_cases h : sTrim (sJoin "," l) = ""
    · simp [sourceKeyB, h]
    · simp [sourceKeyB, h]

/-- C1 (witness): the amended first-key rule evaluated on the
concatenation scenario of the claim. -/
theorem c1_amended_resolution_witness :
    resolveValA
        (fun k => if k == "a" then some (.str "Hello")
                  else if k == "b" then some (.str "World") else none)
        "greet" (some (.keys ["a", "b"])) = some (.str "Hello") := by
  have h := c1_amended_resolution.1
      (fun k => if k == "a" then some (.str "Hello")
                else if k == "b" then some (.str "World") else none)
      "greet" "a" ["b"] (by decide)
  rw [h]
  decide

/-- C2 (counterexample): `on_value = " "` is present and non-empty,
yet variant B's guard `String(onValue).trim() !== ""` rejects it and
falls back to the generic truthiness test: with resolved value "yes"
a "V" is drawn although `"yes"` is not equal to `" "` — the claimed
exact-match iff fails inside the claim's scope. -/
theorem c2_counterexample :
    drawFieldB 1 .helvetica (fun k => if k == "join_type" then some (.str "yes") else none)
        "join_type_sel"
        { type := some "checkbox", source := some (.key "join_type"),
          on_value := some (.str " ") }
      = [⟨0, "V", .num 0, .num 0, .num 10, none, .helvetica⟩]
    ∧ (" " : String) ≠ ""
    ∧ ("yes" : String) ≠ " " := by
  refine ⟨by decide, by decide, by decide⟩

/-- C2 (amended): for a checkbox field with a declared non-`null`
`on_value`, variant A always marks iff the string form of the resolved
value equals the string form of `on_value` (exact, case-sensitive),
drawing exactly one "V" at the field's `(x, y)` when equal and nothing
otherwise.  Variant B applies that same exact-match rule only when
`String(on_value).trim()` is non-empty; a present but blank (empty or
whitespace-only) `on_value` falls back to the generic truthiness test
instead. -/
theorem c2_amended_on_value_match :
    ∀ (pc : Nat) (font : FontRef) (data : DataRec) (k : String) (f : FieldSpec) (ov : JsVal),
      f.on_value = some ov → ov ≠ JsVal.null → pageIdxOf f.page < pc →
      (drawFieldA pc font data k f =
        some (if strOrEmpty (resolveValA data k f.source) = jsString ov then
                [⟨pageIdxOf f.page, "V", effNum f.x 0, effNum f.y 0, effNum f.size 10, none, font⟩]
              else [])) ∧
      (f.type = some "checkbox" →
        (sTrim (jsString ov) ≠ "" →
          drawFieldB pc font data k f =
            if strOrEmpty (data (sourceKeyB f.source k)) = jsString ov then
              [⟨pageIdxOf f.page, "V", effNum f.x 0, effNum f.y 0, sizeOr12 (effNum f.size 10),
                none, font⟩]
            else []) ∧
        (sTrim (jsString ov) = "" →
          drawFieldB pc font data k f =
            if isTruthy (data (sourceKeyB f.source k)) then
              [⟨pageIdxOf f.page, "V", effNum f.x 0, effNum f.y 0, sizeOr12 (effNum f.size 10),
                none, font⟩]
            else [])) := by
  intro pc font data k f ov hov hnull hpc
  constructor
  · rw [drawFieldA_in font data k hpc]
    have ht : treatA k f = true := by
      unfold treatA
      rw [hov, jsNotNull_some hnull]
      simp
    rw [if_pos ht]
    have hch : checkedA data k f =
        (strOrEmpty (resolveValA data k f.source) == jsString ov) := by
      unfold checkedA
      rw [hov, jsNotNull_some hnull]
      simp only [if_true]
      rw [strOrEmpty_compareValA]
    unfold checkboxOpsA
    rw [hch]
    by_cases he : strOrEmpty (resolveValA data k f.source) = jsString ov
    · simp [he]
    · simp [he]
  · intro htype
    have hty : (jsOrStr f.type "text" == "checkbox") = true := by
      rw [htype]; rfl
    constructor
    · intro hblank
      rw [drawFieldB_in font data k hpc, if_pos hty]
      unfold checkboxOpsB
      rw [hov]
      have hcb : checkedB data (sourceKeyB f.source k) (some ov) =
          (strOrEmpty (data (sourceKeyB f.source k)) == jsString ov) := by
        show (if ov ≠ JsVal.null ∧ sTrim (jsString ov) ≠ "" then
                strOrEmpty (data (sourceKeyB f.source k)) == jsString ov
              else isTruthy (data (sourceKeyB f.source k))) = _
        rw [if_pos ⟨hnull, hblank⟩]
      rw [hcb]
      by_cases he : strOrEmpty (data (sourceKeyB f.source k)) = jsString ov
      · simp [he]
      · simp [he]
    · intro hblank
      rw [drawFieldB_in font data k hpc, if_pos hty]
      unfold checkboxOpsB
      rw [hov]
      have hcb : checkedB data (sourceKeyB f.source k) (some ov) =
          isTruthy (data (sourceKeyB f.source k)) := by
        show (if ov ≠ JsVal.null ∧ sTrim (jsString ov) ≠ "" then
                strOrEmpty (data (sourceKeyB f.source k)) == jsString ov
              else isTruthy (data (sourceKeyB f.source k))) = _
        rw [if_neg (fun hand => hand.2 hblank)]
      rw [hcb]

/-- C2 (witness): the amended rule evaluated on the end-to-end
scenario of the spec (`on_value = "new"`, data `join_type = "new"`),
exercising both the variant A equality branch and the variant B
non-blank exact-match branch. -/
theorem c2_amended_on_value_match_witness :
    drawFieldA 1 .helvetica (fun k => if k == "join_type" then some (.str "new") else none)
        "join_type_sel"
        { type := some "checkbox", source := some (.keys ["join_type"]),
          on_value := some (.str "new") }
      = some [⟨0, "V", .num 0, .num 0, .num 10, none, .helvetica⟩]
    ∧ drawFieldB 1 .helvetica (fun k => if k == "join_type" then some (.str "new") else none)
        "join_type_sel"
        { type := some "checkbox", source := some (.key "join_type"),
          on_value := some (.str "new") }
      = [⟨0, "V", .num 0, .num 0, .num 10, none, .helvetica⟩] := by
  constructor
  · have h := (c2_amended_on_value_match 1 .helvetica
        (fun k => if k == "join_type" then some (.str "new") else none) "join_type_sel"
        { type := some "checkbox", source := some (.keys ["join_type"]),
          on_value := some (.str "new") }
        (.str "new") rfl (by decide) (by decide)).1
    rw [h]
    decide
  · have h := ((c2_amended_on_value_match 1 .helvetica
        (fun k => if k == "join_type" then some (.str "new") else none) "join_type_sel"
        { type := some "checkbox", source := some (.key "join_type"),
          on_value := some (.str "new") }
        (.str "new") rfl (by decide) (by decide)).2 rfl).1 (by decide)
    rw [h]
    decide

/-- C3 (counterexample): the token "v" is in the claim's truthy set,
yet variant A's `normalizeBool` does not recognise it: a checkbox
field (key matching no option-group pattern) with resolved value "v"
stays unmarked. -/
theorem c3_counterexample :
    drawFieldA 1 .helvetica (fun k => if k == "agree" then some (.str "v") else none)
        "agree" { type := some "checkbox" } = some []
    ∧ sToLower (sTrim "v") ∈ ["y", "yes", "true", "1", "on", "v", "checked"] := by
  constructor
  · decide
  · decide

/-- C3 (amended): the two variants use different truthiness tests.
Variant B (`isTruthy`) marks iff the value is boolean `true`, a
non-zero number, or a string whose trimmed lowercase form is one of
y / yes / true / 1 / on / v / checked.  Variant A (`normalizeBool`,
reached when the key matches no option-group pattern) marks iff the
lowercase string form (untrimmed) is one of true / 1 / on / yes / y —
in particular "v" and "checked" do not mark in variant A.  Absent,
`null`, empty, "0", "false", "off" and "no" stay unmarked in both. -/
theorem c3_amended_truthiness :
    (∀ s : String, isTruthy (some (.str s)) = true ↔
        sToLower (sTrim s) ∈ ["y", "yes", "true", "1", "on", "v", "checked"]) ∧
    (∀ n : Int, isTruthy (some (.num n)) = true ↔ n ≠ 0) ∧
    (∀ b : Bool, isTruthy (some (.bool b)) = b) ∧
    (isTruthy none = false ∧ isTruthy (some .null) = false) ∧
    (∀ s : String, normalizeBool (some (.str s)) = true ↔
        sToLower s ∈ ["true", "1", "on", "yes", "y"]) ∧
    (∀ (pc : Nat) (font : FontRef) (data : DataRec) (k : String) (f : FieldSpec),
        pageIdxOf f.page < pc → f.on_value = none → f.type = some "checkbox" →
        drawFieldB pc font data k f =
          (if isTruthy (data (sourceKeyB f.source k)) then
            [⟨pageIdxOf f.page, "V", effNum f.x 0, effNum f.y 0, sizeOr12 (effNum f.size 10),
              none, font⟩]
          else [])) ∧
    (∀ (pc : Nat) (font : FontRef) (data : DataRec) (k : String) (f : FieldSpec),
        pageIdxOf f.page < pc → f.on_value = none → treatA k f = true → optionFromKey k = none →
        drawFieldA pc font data k f =
          some (if normalizeBool (resolveValA data k f.source) then
            [⟨pageIdxOf f.page, "V", effNum f.x 0, effNum f.y 0, effNum f.size 10, none, font⟩]
          else [])) := by
  refine ⟨?_, ?_, ?_, ⟨rfl, rfl⟩, ?_, ?_, ?_⟩
  · intro s
    simp only [isTruthy, Bool.or_eq_true, beq_iff_eq, List.mem_cons, List.not_mem_nil, or_false]
    tauto
  · intro n
    simp [isTruthy]
  · intro b
    rfl
  · intro s
    simp only [normalizeBool, jsString, Bool.or_eq_true, beq_iff_eq, List.mem_cons,
      List.not_mem_nil, or_false]
    tauto
  · intro pc font data k f hpc hov hty
    rw [drawFieldB_in font data k hpc]
    rw [if_pos (by rw [hty]; rfl)]
    unfold checkboxOpsB
    rw [hov]
    rfl
  · intro pc font data k f hpc hov ht hopt
    rw [drawFieldA_in font data k hpc, if_pos ht]
    unfold checkboxOpsA checkedA
    rw [hov, hopt]
    rfl

/-- C3 (witness): variant B marks " Checked " (trimmed,
case-insensitive token) via the amended rule. -/
theorem c3_amended_truthiness_witness :
    drawFieldB 1 .helvetica (fun k => if k == "subscribed" then some (.str " Checked ") else none)
        "subscribed" { type := some "checkbox" }
      = [⟨0, "V", .num 0, .num 0, .num 10, none, .helvetica⟩] := by
  have h := c3_amended_truthiness.2.2.2.2.2.1 1 .helvetica
      (fun k => if k == "subscribed" then some (.str " Checked ") else none)
      "subscribed" { type := some "checkbox" } (by decide) rfl rfl
  rw [h]
  decide

/-- C4 (counterexample): a field whose key carries the `join_type_`
group prefix and which declares an `on_value` nevertheless takes the
TEXT path in variant B (its declared type is not "checkbox"): the
resolved value "new" is drawn as text instead of checkbox logic
running. -/
theorem c4_counterexample :
    ((drawFieldB 1 .helvetica (fun k => if k == "join_type" then some (.str "new") else none)
        "join_type_new"
        { source := some (.key "join_type"), on_value := some (.str "new") }).map
        DrawOp.content = ["new"])
    ∧ ("new" : String) ≠ "V" := by
  constructor
  · decide
  · decide

/-- C4 (amended): variant A takes the checkbox path iff the lowercased
declared type is "checkbox", OR the key has a recognised group prefix,
OR a non-`null` `on_value` is declared; variant B takes it iff the
declared type is exactly the string "checkbox" (`on_value` and key
naming play no part in variant B's path choice). -/
theorem c4_amended_checkbox_path :
    ∀ (pc : Nat) (font : FontRef) (data : DataRec) (k : String) (f : FieldSpec),
      pageIdxOf f.page < pc →
      (treatA k f =
        (sToLower (jsOrStr f.type "text") == "checkbox" || isCheckboxKey k ||
          jsNotNull f.on_value)) ∧
      (drawFieldA pc font data k f =
        some (if treatA k f then checkboxOpsA (pageIdxOf f.page) font data k f
              else textOpsA (pageIdxOf f.page) font data k f)) ∧
      (drawFieldB pc font data k f =
        if jsOrStr f.type "text" == "checkbox" then
          checkboxOpsB (pageIdxOf f.page) font data k f
        else textOpsB (pageIdxOf f.page) font data k f) := by
  intro pc font data k f hpc
  exact ⟨rfl, drawFieldA_in font data k hpc, drawFieldB_in font data k hpc⟩

/-- C4 (witness): the amended path rule evaluated on a field declared
`type: "checkbox"` in variant B and on an `on_value`-only field in
variant A. -/
theorem c4_amended_checkbox_path_witness :
    drawFieldB 1 .helvetica (fun _ => none) "opt"
        { type := some "checkbox" }
      = checkboxOpsB 0 .helvetica (fun _ => none) "opt" { type := some "checkbox" }
    ∧ drawFieldA 1 .helvetica (fun _ => none) "opt"
        { on_value := some (.str "x") }
      = some (checkboxOpsA 0 .helvetica (fun _ => none) "opt" { on_value := some (.str "x") }) := by
  constructor
  · have h := (c4_amended_checkbox_path 1 .helvetica (fun _ => none) "opt"
        { type := some "checkbox" } (by decide)).2.2
    rw [h]
    rfl
  · have h := (c4_amended_checkbox_path 1 .helvetica (fun _ => none) "opt"
        { on_value := some (.str "x") } (by decide)).2.1
    rw [h]
    rfl

/-- C5 (counterexample): a mapping whose first field targets page 5 of
a 1-page template makes variant A abort the whole render (the page
lookup throws; no output document, the remaining field is dropped),
while variant B skips the bad field and still renders the second
field — the claim's "skipped silently, no field aborts the render"
holds only for variant B. -/
theorem c5_counterexample :
    renderA 1 .helvetica [("bad", { page := some 5 }), ("name", { y := some (.num 700) })]
        (fun k => if k == "name" then some (.str "Kim") else none) = none
    ∧ renderB 1 .helvetica [("bad", { page := some 5 }), ("name", { y := some (.num 700) })]
        (fun k => if k == "name" then some (.str "Kim") else none)
      = [⟨0, "Kim", .num 0, .num 700, .num 10, none, .helvetica⟩] := by
  constructor
  · decide
  · decide

/-- C5 (amended): variant B skips an out-of-range page field and always
completes, processing every remaining field; variant A completes iff
EVERY field's page index is within the template — a single
out-of-range field throws and aborts the whole render. -/
theorem c5_amended_page_skip :
    ∀ (pc : Nat) (font : FontRef) (data : DataRec) (fields : List (String × FieldSpec)),
      ((renderA pc font fields data).isSome ↔ ∀ p ∈ fields, pageIdxOf (p.2).page < pc) ∧
      (∀ (k : String) (f : FieldSpec), pc ≤ pageIdxOf f.page →
        drawFieldB pc font data k f = []) ∧
      (∀ (k : String) (f : FieldSpec) (rest : List (String × FieldSpec)),
        renderB pc font ((k, f) :: rest) data =
          drawFieldB pc font data k f ++ renderB pc font rest data) := by
  intro pc font data fields
  exact ⟨renderA_isSome pc font data fields,
         fun k f h => drawFieldB_skip font data k h,
         fun k f rest => rfl⟩

/-- C5 (witness): the completion criterion evaluated on a 2-page
template with one in-range field. -/
theorem c5_amended_page_skip_witness :
    (renderA 2 .helvetica [("a", { page := some 2 })] (fun _ => none)).isSome := by
  exact ((c5_amended_page_skip 2 .helvetica (fun _ => none)
      [("a", { page := some 2 })]).1).mpr (by decide)

/-- C6 (counterexample): a wrap-eligible single-line value is drawn at
`y` itself — `drawMultiline` applies no half-line-height centering
offset, so at `y = 100`, `size = 10` the draw happens at 100, not at
the claimed `y - size*1.2/2 = 94`. -/
theorem c6_counterexample :
    drawMultiline 0 .helvetica "AB" (.num 0) (.num 100) (.num 10)
      = [⟨0, "AB", .num 0, .num 100, .num 10, none, .helvetica⟩]
    ∧ (100 : Int) ≠ 100 - 6 := by
  constructor
  · decide
  · decide

/-- C6 (amended): in variant B the i-th (0-based, blank lines counted)
non-blank line of a value is drawn at `(x, y - i*lh)` where
`lh = Math.round(size * 1.2)` (the rounded value, `⌊(12*size+5)/10⌋`),
and a value without a line break is drawn as a single line starting
exactly at `y` — there is no half-line-height centering offset.
Variant A instead issues one draw call whose `lineHeight` option is
`size + 2`. -/
theorem c6_amended_vertical_layout :
    (∀ (p : Nat) (font : FontRef) (x : JsNumber) (sz y : Int) (t : String)
        (i : Nat) (h : i < (sSplitOn t "\n").length),
        (sSplitOn t "\n").get ⟨i, h⟩ ≠ "" →
        (⟨p, (sSplitOn t "\n").get ⟨i, h⟩, x, .num (y - i * Int.fdiv (12 * sz + 5) 10),
          .num sz, none, font⟩ : DrawOp) ∈ drawMultiline p font t x (.num y) (.num sz)) ∧
    (∀ (p : Nat) (font : FontRef) (x : JsNumber) (sz y : Int) (t : String) (op : DrawOp),
        op ∈ drawMultiline p font t x (.num y) (.num sz) →
        ∃ i, ∃ h : i < (sSplitOn t "\n").length, (sSplitOn t "\n").get ⟨i, h⟩ ≠ "" ∧
          op = ⟨p, (sSplitOn t "\n").get ⟨i, h⟩, x, .num (y - i * Int.fdiv (12 * sz + 5) 10),
            .num sz, none, font⟩) ∧
    (∀ (p : Nat) (font : FontRef) (x : JsNumber) (sz y : Int) (t : String),
        '\n' ∉ t.data → t ≠ "" →
        drawMultiline p font t x (.num y) (.num sz) = [⟨p, t, x, .num y, .num sz, none, font⟩]) ∧
    (∀ (pc : Nat) (font : FontRef) (data : DataRec) (k : String) (f : FieldSpec)
        (ops : List DrawOp) (op : DrawOp),
        drawFieldA pc font data k f = some ops → op ∈ ops → treatA k f = false →
        op.lineHeight = some (jsAdd (effNum f.size 10) 2)) := by
  refine ⟨?_, ?_, ?_, ?_⟩
  · intro p font x sz y t i h hne
    exact drawLines_pos p font x (.num sz) (Int.fdiv (12 * sz + 5) 10)
      (sSplitOn t "\n") y i h hne
  · intro p font x sz y t op hop
    exact drawLines_pos_complete p font x (.num sz) (Int.fdiv (12 * sz + 5) 10)
      (sSplitOn t "\n") y op hop
  · intro p font x sz y t hnl hne
    unfold drawMultiline
    rw [sSplitOn_no_newline t hnl]
    rw [drawLines]
    rw [if_neg (by simpa using hne)]
    rfl
  · intro pc font data k f ops op hops hop ht
    by_cases hpc : pageIdxOf f.page < pc
    · rw [drawFieldA_in font data k hpc] at hops
      injection hops with hops
      subst hops
      rw [if_neg (by rw [ht]; exact Bool.false_ne_true)] at hop
      unfold textOpsA at hop
      by_cases hc : (textA data k f == "") = true
      · rw [if_pos hc] at hop
        simp at hop
      · rw [if_neg hc] at hop
        rcases List.mem_singleton.mp hop with rfl
        rfl
    · rw [drawFieldA_out font data k (Nat.not_lt.mp hpc)] at hops
      exact Option.noConfusion hops

/-- C6 (witness): the no-centering rule evaluated on a one-line value
at `y = 600`, `size = 10`. -/
theorem c6_amended_vertical_layout_witness :
    drawMultiline 0 .helvetica "Kim" (.num 0) (.num 600) (.num 10)
      = [⟨0, "Kim", .num 0, .num 600, .num 10, none, .helvetica⟩] := by
  exact c6_amended_vertical_layout.2.2.1 0 .helvetica (.num 0) 10 600 "Kim"
    (by decide) (by decide)

/-- C7 (confirmed): a wrap-eligible value with no line break that
exceeds the width `n` is split by `splitEvery` into consecutive
fixed-width chunks joined with newlines: the chunks concatenate back
to the value, every chunk except the last has exactly `n` characters,
and every chunk is non-empty with at most `n` characters.  (The
witness instantiates the spec's scenario: width 30, length 32, two
lines of 30 and 2 characters.) -/
theorem c7_fixed_width_wrap :
    ∀ (s : String) (n : Nat), n ≠ 0 → n < sLength s → '\n' ∉ s.data →
      splitEvery s n = sJoin "\n" ((chunkChars n s.data).map String.mk) ∧
      (chunkChars n s.data).flatten = s.data ∧
      (∀ c ∈ (chunkChars n s.data).dropLast, c.length = n) ∧
      (∀ c ∈ chunkChars n s.data, c ≠ [] ∧ c.length ≤ n) := by
  intro s n hn hlen _
  have hs : s ≠ "" := by
    intro h
    subst h
    simp [sLength] at hlen
  refine ⟨splitEvery_of_long hs hlen, ?_, ?_, ?_⟩
  · exact chunkGo_join n s.data.length s.data (Nat.le_refl _)
  · exact chunkGo_dropLast n hn s.data.length s.data (Nat.le_refl _)
  · exact chunkGo_chunks n hn s.data.length s.data (Nat.le_refl _)

/-- C7 (witness): wrap width 30 on a 32-character value with no line
break yields exactly two lines, of 30 and 2 characters. -/
theorem c7_fixed_width_wrap_witness :
    splitEvery (String.mk (List.replicate 30 'a' ++ ['b', 'c'])) 30
      = sJoin "\n"
          ((chunkChars 30 (String.mk (List.replicate 30 'a' ++ ['b', 'c'])).data).map String.mk)
    ∧ (sSplitOn (splitEvery (String.mk (List.replicate 30 'a' ++ ['b', 'c'])) 30) "\n").map sLength
      = [30, 2] := by
  have h := c7_fixed_width_wrap (String.mk (List.replicate 30 'a' ++ ['b', 'c'])) 30
      (by decide) (by decide) (by decide)
  exact ⟨h.1, by decide⟩

/-- C8 (counterexample): with the fallback font unavailable, variant A
silently selects Helvetica and the render completes normally — no hard
error is raised by the overlay code even though the value "한" is
non-ASCII; the draw instruction simply carries the Latin-only font. -/
theorem c8_counterexample :
    selectFontA true false true = .helvetica
    ∧ renderA 1 .helvetica [("name", {})]
        (fun k => if k == "name" then some (.str "한") else none)
      = some [⟨0, "한", .num 0, .num 0, .num 10, some (.num 12), .helvetica⟩]
    ∧ hasNonAscii "한" = true := by
  refine ⟨by decide, by decide, by decide⟩

/-- C8 (amended): neither variant inspects value content when choosing
a font.  When the fallback font is unavailable (variant A) or fails to
fetch/embed (variant B), the Latin-only standard font is silently
selected, and the render then completes without any error from the
overlay code, stamping that font on every draw instruction (non-ASCII
values included); any hard failure could only come from the external
PDF library, not from this code. -/
theorem c8_amended_font_fallback :
    (∀ fk eo : Bool, selectFontA fk false eo = .helvetica) ∧
    (∀ eo : Bool, selectFontB false eo = .helvetica) ∧
    (∀ (pc : Nat) (font : FontRef) (fields : List (String × FieldSpec)) (data : DataRec),
        (∀ p ∈ fields, pageIdxOf (p.2).page < pc) →
        ∃ ops, renderA pc font fields data = some ops ∧ ∀ op ∈ ops, op.font = font) ∧
    (∀ (pc : Nat) (font : FontRef) (fields : List (String × FieldSpec)) (data : DataRec)
        (op : DrawOp), op ∈ renderB pc font fields data → op.font = font) := by
  refine ⟨?_, ?_, ?_, ?_⟩
  · intro fk eo
    simp [selectFontA]
  · intro eo
    rfl
  · intro pc font fields data h
    exact renderA_fonts pc font data fields h
  · intro pc font fields data op hop
    exact renderB_fonts pc font data fields op hop

/-- C8 (witness): the silent-fallback render evaluated on a non-ASCII
value with the Latin font. -/
theorem c8_amended_font_fallback_witness :
    ∃ ops, renderA 1 .helvetica [("note", {})]
        (fun k => if k == "note" then some (.str "가나") else none) = some ops
      ∧ ∀ op ∈ ops, op.font = .helvetica := by
  exact c8_amended_font_fallback.2.2.1 1 .helvetica [("note", {})]
    (fun k => if k == "note" then some (.str "가나") else none) (by decide)

/-- C9 (counterexample): a truthy non-numeric `x` entry ("abc") does
not fall back to the default 0 — it goes through `Number()` and the
field is drawn with `x = NaN`. -/
theorem c9_counterexample :
    drawFieldB 1 .helvetica (fun k => if k == "name" then some (.str "Kim") else none)
        "name" { x := some (.str "abc") }
      = [⟨0, "Kim", .nan, .num 0, .num 10, none, .helvetica⟩]
    ∧ JsNumber.nan ≠ JsNumber.num 0 := by
  constructor
  · decide
  · decide

/-- C9 (amended): the numeric defaults `x = 0`, `y = 0`, `size = 10`
apply when the mapping entry is absent or falsy (0, empty string,
`null`, `false`); a truthy entry goes through `Number()`, so a truthy
non-numeric entry (e.g. "abc") yields `NaN`, not the default. -/
theorem c9_amended_numeric_defaults :
    ∀ d : Int,
      effNum none d = .num d ∧
      effNum (some (.num 0)) d = .num d ∧
      effNum (some (.str "")) d = .num d ∧
      effNum (some .null) d = .num d ∧
      effNum (some (.bool false)) d = .num d ∧
      (∀ n : Int, n ≠ 0 → effNum (some (.num n)) d = .num n) ∧
      (∀ s : String, s ≠ "" → effNum (some (.str s)) d = parseJsNum s) ∧
      parseJsNum "abc" = .nan := by
  intro d
  refine ⟨rfl, ?_, rfl, rfl, rfl, ?_, ?_, by decide⟩
  · simp [effNum, jsFalsy]
  · intro n hn
    simp [effNum, jsFalsy, toNumber, hn]
  · intro s hs
    simp [effNum, jsFalsy, toNumber, hs]

/-- C9 (witness): the default/NaN rule evaluated at `x = "abc"` and an
absent `size`. -/
theorem c9_amended_numeric_defaults_witness :
    effNum (some (.str "abc")) 0 = .nan ∧ effNum none 10 = .num 10 := by
  constructor
  · have h := c9_amended_numeric_defaults 0
    rw [h.2.2.2.2.2.2.1 "abc" (by decide)]
    exact h.2.2.2.2.2.2.2
  · exact (c9_amended_numeric_defaults 10).1

/-- C10 (confirmed): an absent, zero or negative `page` entry is
clamped to 0-based page index 0 by both handlers; on a template with
at least one page the field is processed against the first page — not
skipped and not an error — and every draw it produces targets page 0. -/
theorem c10_page_clamp_first_page :
    ∀ (pc : Nat) (font : FontRef) (data : DataRec) (k : String) (f : FieldSpec),
      1 ≤ pc → (f.page = none ∨ ∃ n : Int, n ≤ 0 ∧ f.page = some n) →
      pageIdxOf f.page = 0 ∧
      (drawFieldA pc font data k f).isSome ∧
      (∀ ops, drawFieldA pc font data k f = some ops → ∀ op ∈ ops, op.pageIdx = 0) ∧
      (∀ op ∈ drawFieldB pc font data k f, op.pageIdx = 0) := by
  intro pc font data k f hpc hpage
  have h0 : pageIdxOf f.page = 0 := by
    rcases hpage with h | ⟨n, hn, h⟩
    · rw [h]; rfl
    · rw [h]
      unfold pageIdxOf
      rcases eq_or_lt_of_le hn with rfl | hlt
      · rfl
      · have hne : n ≠ 0 := ne_of_lt hlt
        simp only [hne, if_false]
        omega
  have hlt : pageIdxOf f.page < pc := by omega
  refine ⟨h0, ?_, ?_, ?_⟩
  · rw [drawFieldA_in font data k hlt]
    rfl
  · intro ops hops op hop
    have := drawFieldA_ops_shape pc font data k f ops hops op hop
    rw [h0] at this
    exact this.1
  · intro op hop
    have := drawFieldB_ops_shape pc font data k f op hop
    rw [h0] at this
    exact this.1

/-- C10 (witness): the clamp rule evaluated at `page = -3` on a 1-page
template. -/
theorem c10_page_clamp_first_page_witness :
    pageIdxOf (some (-3) : Option Int) = 0 ∧
    (drawFieldA 1 .helvetica (fun k => if k == "memo" then some (.str "hi") else none)
        "memo" { page := some (-3) }).isSome := by
  have h := c10_page_clamp_first_page 1 .helvetica
      (fun k => if k == "memo" then some (.str "hi") else none) "memo" { page := some (-3) }
      (by decide) (Or.inr ⟨-3, by decide, rfl⟩)
  exact ⟨h.1, h.2.1⟩
